import Mathlib

/-!
Verification development for a semantic text-chunking engine.

The definitions below are a shallow embedding of the engine's source:
`SemanticAnalyzer` (cosine distances, percentile threshold, grouping,
short-chunk merging), `SentenceProcessor` (context-window construction),
`SubtitleParser` (SRT parsing) and the orchestrating
`SemanticChunkingService.processTextFile` pipeline.

JavaScript numbers are modelled as real numbers; JavaScript `undefined`
for optional fields is modelled with `Option`; a thrown exception is
modelled with `Except.error`.  The scalar type of embedding vectors is a
type parameter `α` on `SentenceObject`; the numeric pipeline instantiates
it at `ℝ`, while the grouping layer never inspects it.
-/

namespace Chunking

/-- Metadata attached to one parsed subtitle entry (`SubtitleMetadata`
in `types/index.ts`; every field is optional there). -/
structure SubtitleMetadataV where
  subtitleIndex : Option Int := none
  startTime : Option String := none
  endTime : Option String := none
  timestamp : Option String := none
deriving Repr, DecidableEq

/-- One text unit (`SentenceObject` in `types/index.ts`).  `α` is the
scalar type of embedding coordinates (a JS `number`); the grouping layer
is parametric in it. -/
structure SentenceObject (α : Type) where
  sentence : String
  index : Nat
  combined_sentence : Option String := none
  combined_sentence_embedding : Option (List α) := none
  distance_to_next : Option α := none
  metadata : Option SubtitleMetadataV := none
deriving Repr

/-- Chunk metadata (`SemanticChunk.metadata` in `types/index.ts`; all
fields optional in the TS type). -/
structure ChunkMetadata where
  subtitleIndex : Option Int := none
  startTime : Option String := none
  endTime : Option String := none
  timestamp : Option String := none
  sentenceCount : Option Nat := none
  startSentenceIndex : Option Nat := none
  endSentenceIndex : Option Nat := none
deriving Repr, DecidableEq

/-- A semantic chunk (`SemanticChunk` in `types/index.ts`). -/
structure Chunk where
  content : String
  metadata : Option ChunkMetadata := none
deriving Repr, DecidableEq

/-- JS truthiness of an optional string: `undefined` and `""` are falsy. -/
def strTruthy (s : Option String) : Bool :=
  match s with
  | none => false
  | some t => !t.isEmpty

/-- `Array.prototype.slice(start, end)` for a non-negative `end` bound
(the only case the grouping code can reach: `end = breakpoint + 1` with
`breakpoint ≥ -1`).  A negative `end` is clamped to `0` by `Int.toNat`,
which coincides with JS for `end = 0`. -/
def jsSlice {β : Type} (l : List β) (s : Nat) (e : Int) : List β :=
  (l.take e.toNat).drop s

/-- `SemanticAnalyzer.mergeTwoChunks`: concatenate contents with one
space; metadata takes `subtitleIndex`/`startTime`/`startSentenceIndex`
from the first chunk, `endTime`/`endSentenceIndex` from the second,
`sentenceCount` the sum (JS `|| 0` default), and `timestamp` is set only
when both times are truthy. -/
def mergeTwoChunks (chunk1 chunk2 : Chunk) : Chunk :=
  let startTime := chunk1.metadata.bind (·.startTime)
  let endTime := chunk2.metadata.bind (·.endTime)
  let count1 := ((chunk1.metadata.bind (·.sentenceCount)).getD 0)
  let count2 := ((chunk2.metadata.bind (·.sentenceCount)).getD 0)
  { content := chunk1.content ++ " " ++ chunk2.content
    metadata := some
      { subtitleIndex := chunk1.metadata.bind (·.subtitleIndex)
        startTime := startTime
        endTime := endTime
        sentenceCount := some (count1 + count2)
        startSentenceIndex := chunk1.metadata.bind (·.startSentenceIndex)
        endSentenceIndex := chunk2.metadata.bind (·.endSentenceIndex)
        timestamp :=
          if strTruthy startTime && strTruthy endTime then
            some ((startTime.getD "") ++ " --> " ++ (endTime.getD ""))
          else none } }

/-- The sentence count the merge pass reads from a chunk:
`currentChunk.metadata?.sentenceCount || 1` (so `undefined` and `0` both
read as `1`). -/
def chunkCount (c : Chunk) : Nat :=
  let k := (c.metadata.bind (·.sentenceCount)).getD 0
  if k = 0 then 1 else k

/-- Loop body of `SemanticAnalyzer.mergeShortChunks`: `acc` is the
`mergedChunks` array built so far, the second list is the raw chunks not
yet consumed.  A chunk with fewer than `minSentences` sentences is merged
into the previous output chunk when one exists, otherwise with the next
raw chunk when one exists, otherwise kept. -/
def mergeShortChunksGo (minSentences : Nat) : List Chunk → List Chunk → List Chunk
  | acc, [] => acc
  | acc, c :: rest =>
    if minSentences ≤ chunkCount c then
      mergeShortChunksGo minSentences (acc ++ [c]) rest
    else
      match acc.getLast? with
      | some prev => mergeShortChunksGo minSentences (acc.dropLast ++ [mergeTwoChunks prev c]) rest
      | none =>
        match rest with
        | next :: rest2 => mergeShortChunksGo minSentences (acc ++ [mergeTwoChunks c next]) rest2
        | [] => acc ++ [c]

/-- `SemanticAnalyzer.mergeShortChunks` (single left-to-right pass; the
source's default for `minSentences` is 2, and its only caller uses that
default). -/
def mergeShortChunks (chunks : List Chunk) (minSentences : Nat) : List Chunk :=
  if chunks.isEmpty then chunks else mergeShortChunksGo minSentences [] chunks

/-- Metadata aggregation for one raw group in
`SemanticAnalyzer.groupSentencesIntoChunks`: counts and first/last unit
indices, plus subtitle metadata copied from the first and last units
when present (`timestamp` only when both times are truthy, checked inside
the `lastSentence.metadata` branch as in the source). -/
def groupChunk {α : Type} (group : List (SentenceObject α)) (first last_ : SentenceObject α) :
    Chunk :=
  let base : ChunkMetadata :=
    { sentenceCount := some group.length
      startSentenceIndex := some first.index
      endSentenceIndex := some last_.index }
  let withFirst : ChunkMetadata :=
    match first.metadata with
    | some md => { base with subtitleIndex := md.subtitleIndex, startTime := md.startTime }
    | none => base
  let withLast : ChunkMetadata :=
    match last_.metadata with
    | some md =>
      let m := { withFirst with endTime := md.endTime }
      if strTruthy m.startTime && strTruthy m.endTime then
        { m with timestamp := some ((m.startTime.getD "") ++ " --> " ++ (m.endTime.getD "")) }
      else m
    | none => withFirst
  { content := String.intercalate " " (group.map (·.sentence))
    metadata := some withLast }

/-- The `forEach` loop of `SemanticAnalyzer.groupSentencesIntoChunks`.
Reading `group[0].index` on an empty slice is a JS `TypeError`, modelled
as `Except.error`. -/
def groupGo {α : Type} (arr : List (SentenceObject α)) :
    List Int → Nat → List Chunk → Except String (List Chunk)
  | [], _, chunks => .ok chunks
  | b :: bs, startIdx, chunks =>
    match jsSlice arr startIdx (b + 1) with
    | [] => .error "TypeError: Cannot read properties of undefined"
    | first :: tail =>
      let group := first :: tail
      let last_ := group.getLast (List.cons_ne_nil _ _)
      groupGo arr bs (b + 1).toNat (chunks ++ [groupChunk group first last_])

/-- `SemanticAnalyzer.groupSentencesIntoChunks`: append the sentinel
breakpoint `length - 1` (JS arithmetic, so `-1` on the empty array),
slice out the groups, then run the short-chunk merge pass with its
default minimum of 2. -/
def groupSentencesIntoChunks {α : Type} (sentenceObjectArray : List (SentenceObject α))
    (shiftIndices : List Int) : Except String (List Chunk) :=
  let adjustedBreakpoints := shiftIndices ++ [(sentenceObjectArray.length : Int) - 1]
  match groupGo sentenceObjectArray adjustedBreakpoints 0 [] with
  | .error e => .error e
  | .ok chunks => .ok (mergeShortChunks chunks 2)

/-- The `sentenceCount` stored in a chunk's metadata (`0` when absent,
which never happens for chunks built by the grouping code). -/
def countVal (c : Chunk) : Nat := (c.metadata.bind (·.sentenceCount)).getD 0

/-- The chunk's metadata records exactly the unit range `[s, e]`:
`startSentenceIndex = s`, `endSentenceIndex = e` and a `sentenceCount`
equal to the size of the range. -/
def chunkHasRange (c : Chunk) (s e : Nat) : Prop :=
  (c.metadata.bind (·.startSentenceIndex)) = some s ∧
  (c.metadata.bind (·.endSentenceIndex)) = some e ∧
  (c.metadata.bind (·.sentenceCount)) = some (e + 1 - s)

/-- The ordered chunk list carries ranges that, in order, exactly
partition the index interval `[a, n-1]`: the first chunk starts at `a`,
each chunk ends no earlier than it starts, the next chunk starts right
after the previous one ends (no gap, no overlap), and the last chunk
ends at `n - 1`. -/
def WFCover (a : Nat) : List Chunk → Nat → Prop
  | [], n => a = n
  | c :: rest, n => ∃ e, a ≤ e ∧ chunkHasRange c a e ∧ WFCover (e + 1) rest n

/-! ### JS string helpers and SRT subtitle parsing (`SubtitleParser.ts`) -/

/-- JS regex `\s` whitespace: the ASCII whitespace characters plus NBSP
(the further exotic Unicode space code points do not occur in SRT
inputs and are omitted). -/
def jsWS (c : Char) : Bool :=
  c = ' ' || c = '\t' || c = '\n' || c = '\r' || c.toNat = 11 || c.toNat = 12 || c.toNat = 160

/-- `String.prototype.trim` on a character list: strip leading and
trailing whitespace. -/
def trimChars (l : List Char) : List Char :=
  ((l.dropWhile jsWS).reverse.dropWhile jsWS).reverse

/-- `String.prototype.trim`. -/
def jsTrim (s : String) : String := String.mk (trimChars s.data)

/-- Length of the text consumed by a greedy match of the regex
`\n\s*\n` whose leading `\n` has just been read: the whitespace run
after it is scanned and the match extends through the last `\n` inside
that run (regex greediness); `none` when the run contains no further
newline, in which case the regex does not match here. -/
def blankRunLen (rest : List Char) : Option Nat :=
  let run := rest.takeWhile jsWS
  match run.reverse.findIdx? (· == '\n') with
  | some j => some (run.length - j)
  | none => none

/-- The scanning loop of `textCorpus.split(/\n\s*\n/)`, with the segment
read so far accumulated in reverse. -/
def splitBlankGo : List Char → List Char → List (List Char)
  | cur, [] => [cur.reverse]
  | cur, c :: rest =>
    if c = '\n' then
      match blankRunLen rest with
      | some k => cur.reverse :: splitBlankGo [] (rest.drop k)
      | none => splitBlankGo (c :: cur) rest
    else splitBlankGo (c :: cur) rest
termination_by _cur l => l.length
decreasing_by all_goals (simp only [List.length_drop, List.length_cons]; omega)

/-- `textCorpus.split(/\n\s*\n/)`. -/
def splitOnBlank (text : List Char) : List (List Char) := splitBlankGo [] text

/-- Decimal value of a digit run. -/
def decDigitsVal (ds : List Char) : Nat :=
  ds.foldl (fun a c => a * 10 + (c.toNat - '0'.toNat)) 0

/-- One hexadecimal digit? -/
def isHexDigitCh (c : Char) : Bool :=
  c.isDigit || ('a' ≤ c && c ≤ 'f') || ('A' ≤ c && c ≤ 'F')

/-- Hexadecimal value of a hex-digit run. -/
def hexDigitsVal (ds : List Char) : Nat :=
  ds.foldl (fun a c =>
    a * 16 + (if c.isDigit then c.toNat - '0'.toNat
              else if 'a' ≤ c && c ≤ 'f' then c.toNat - 'a'.toNat + 10
              else c.toNat - 'A'.toNat + 10)) 0

/-- JS `parseInt(str)` with no radix argument: skip leading whitespace,
read an optional sign, then either a `0x`/`0X` hexadecimal digit run or
a decimal digit run; the result is `NaN` (here `none`) when no digit
follows. -/
def jsParseInt (l : List Char) : Option Int :=
  let l1 := l.dropWhile jsWS
  let signed : Int × List Char :=
    match l1 with
    | '-' :: r => (-1, r)
    | '+' :: r => (1, r)
    | _ => (1, l1)
  match signed.2 with
  | '0' :: 'x' :: r =>
    let ds := r.takeWhile isHexDigitCh
    if ds.isEmpty then none else some (signed.1 * hexDigitsVal ds)
  | '0' :: 'X' :: r =>
    let ds := r.takeWhile isHexDigitCh
    if ds.isEmpty then none else some (signed.1 * hexDigitsVal ds)
  | l2 =>
    let ds := l2.takeWhile Char.isDigit
    if ds.isEmpty then none else some (signed.1 * decDigitsVal ds)

/-- Match `\d{2}:\d{2}:\d{2},\d{3}` at the head of the input, returning
the twelve matched characters and the remainder. -/
def tsAt : List Char → Option (List Char × List Char)
  | a :: b :: ':' :: c :: d :: ':' :: e :: f :: ',' :: g :: h :: i :: rest =>
    if a.isDigit && b.isDigit && c.isDigit && d.isDigit && e.isDigit && f.isDigit
        && g.isDigit && h.isDigit && i.isDigit then
      some ([a, b, ':', c, d, ':', e, f, ',', g, h, i], rest)
    else none
  | _ => none

/-- First match of the timestamp regex
`(\d{2}:\d{2}:\d{2},\d{3})\s*-->\s*(\d{2}:\d{2}:\d{2},\d{3})` in a line,
returning its two capture groups.  The regex engine scans start
positions left to right; between the groups the greedy `\s*` runs meet
the literal arrow deterministically because `-` is not whitespace. -/
def findTimestampMatch : List Char → Option (List Char × List Char)
  | [] => none
  | l@(_ :: rest) =>
    match tsAt l with
    | some (g1, r1) =>
      (match r1.dropWhile jsWS with
       | '-' :: '-' :: '>' :: r3 =>
         (match tsAt (r3.dropWhile jsWS) with
          | some (g2, _) => some (g1, g2)
          | none => findTimestampMatch rest)
       | _ => findTimestampMatch rest)
    | none => findTimestampMatch rest

/-- One parsed subtitle entry (`ParsedSubtitle` in `SubtitleParser.ts`). -/
structure ParsedSubtitle where
  content : String
  metadata : SubtitleMetadataV
deriving Repr, DecidableEq

/-- Per-block body of the `for` loop in `SubtitleParser.parseSubtitles`;
`none` models `continue` (a silently dropped block). -/
def parseBlock (block : List Char) : Option ParsedSubtitle :=
  let lines := ((block.splitOn '\n').map trimChars).filter (fun l => !l.isEmpty)
  if lines.length < 2 then none
  else
    let subtitleIndex := jsParseInt (lines.getD 0 [])
    match findTimestampMatch (lines.getD 1 []) with
    | none => none
    | some (st, et) =>
      let content := List.intercalate [' '] (lines.drop 2)
      match subtitleIndex, content.isEmpty with
      | some idx, false =>
        some { content := String.mk (trimChars content)
               metadata :=
                 { subtitleIndex := some idx
                   startTime := some (String.mk st)
                   endTime := some (String.mk et)
                   timestamp := some (String.mk (lines.getD 1 [])) } }
      | _, _ => none

/-- `SubtitleParser.parseSubtitles`: split into blocks on blank lines,
keep the blocks that survive the per-block checks, in input order. -/
def parseSubtitles (textCorpus : String) : List ParsedSubtitle :=
  ((splitOnBlank textCorpus.data).filter (fun b => !(trimChars b).isEmpty)).filterMap parseBlock

/-- Specification-side reading of one subtitle block, following the
claim's words: the first (nonblank, trimmed) line is an integer index,
the second must contain a timestamp of shape
`NN:NN:NN,NNN --> NN:NN:NN,NNN`, and the remaining lines joined with
single spaces form the content; the block is kept only when the index is
numeric, the timestamp matches and the content is nonempty. -/
def specBlockEntry (block : List Char) : Option ParsedSubtitle :=
  match ((block.splitOn '\n').map trimChars).filter (fun l => !l.isEmpty) with
  | line0 :: line1 :: restLines =>
    (match jsParseInt line0, findTimestampMatch line1 with
     | some idx, some (st, et) =>
       let content := List.intercalate [' '] restLines
       if content.isEmpty then none
       else
         some { content := String.mk (trimChars content)
                metadata :=
                  { subtitleIndex := some idx
                    startTime := some (String.mk st)
                    endTime := some (String.mk et)
                    timestamp := some (String.mk line1) } }
     | _, _ => none)
  | _ => none

/-! ### Context windows (`SentenceProcessor.ts`) -/

/-- The `combinedSentence` loop body of
`SentenceProcessor.structureSentences` (the same two loops appear in
`structureSubtitles`) for the unit at position `i`: the first `for` loop
appends each in-range neighbor in `[i-bufferSize, i-1]` followed by a
space, then the unit's own content followed by a space, then the second
loop appends each in-range neighbor in `[i+1, i+bufferSize]` with no
separator; finally the string is trimmed. -/
def structuredCombined (sentences : List String) (bufferSize : Nat) (i : Nat) : String :=
  let s1 := (List.range bufferSize).foldl
    (fun acc (k : Nat) =>
      let j : Int := (i : Int) - (bufferSize : Int) + (k : Int)
      if 0 ≤ j then acc ++ sentences.getD j.toNat "" ++ " " else acc) ""
  let s2 := s1 ++ sentences.getD i "" ++ " "
  let s3 := (List.range bufferSize).foldl
    (fun acc (k : Nat) =>
      let j := i + 1 + k
      if j < sentences.length then acc ++ sentences.getD j "" else acc) s2
  jsTrim s3

/-- `SentenceProcessor.structureSentences`: one `SentenceObject` per
input sentence, in order, with `combined_sentence` built from the
`bufferSize` window. -/
def structureSentences {α : Type} (sentences : List String) (bufferSize : Nat) :
    List (SentenceObject α) :=
  sentences.enum.map fun p =>
    { sentence := p.2
      index := p.1
      combined_sentence := some (structuredCombined sentences bufferSize p.1) }

/-- `SentenceProcessor.structureSubtitles`: parse the subtitles, keep
their metadata, and build the same `bufferSize` context windows over
their contents. -/
def structureSubtitles {α : Type} (textCorpus : String) (bufferSize : Nat) :
    List (SentenceObject α) :=
  let parsedSubtitles := parseSubtitles textCorpus
  let contents := parsedSubtitles.map (·.content)
  parsedSubtitles.enum.map fun p =>
    { sentence := p.2.content
      index := p.1
      combined_sentence := some (structuredCombined contents bufferSize p.1)
      metadata := some p.2.metadata }

/-- Specification-side context window, following the claim's words:
contents of positions `[i-b, i-1]` (clipped at 0) each followed by one
space, the content at `i` followed by one space, then the contents of
positions `[i+1, i+b]` (clipped at the last position) concatenated
directly with no separator, the whole string trimmed. -/
def specContextWindow (sentences : List String) (b : Nat) (i : Nat) : String :=
  let pre := String.join (((sentences.take i).drop (i - b)).map (· ++ " "))
  let mid := sentences.getD i "" ++ " "
  let post := String.join ((sentences.take (i + 1 + b)).drop (i + 1))
  jsTrim (pre ++ mid ++ post)

/-! ### Embedding attachment (`EmbeddingService.ts`) -/

/-- Attachment loop of `EmbeddingService.generateAndAttachEmbeddings`:
each item with a `combined_sentence` receives the next embedding from
the batch in order (`undefined`, i.e. `none`, once the batch is
exhausted); other items keep their copied fields. -/
def attachEmbeddings {α : Type} : List (SentenceObject α) → List (List α) →
    List (SentenceObject α)
  | [], _ => []
  | item :: rest, embs =>
    match item.combined_sentence with
    | some _ =>
      { item with combined_sentence_embedding := embs.head? } :: attachEmbeddings rest embs.tail
    | none => item :: attachEmbeddings rest embs

/-- `EmbeddingService.generateAndAttachEmbeddings`, with the external
embedding provider abstracted as the `embedDocuments` parameter: one
batch call over the items' `combined_sentence` strings, attached back in
order. -/
def generateAndAttachEmbeddings {α : Type} (embedDocuments : List String → List (List α))
    (sentencesArray : List (SentenceObject α)) : List (SentenceObject α) :=
  let combinedSentencesStrings := sentencesArray.filterMap (·.combined_sentence)
  attachEmbeddings sentencesArray (embedDocuments combinedSentencesStrings)

/-! ### DistanceProfiler (`SemanticAnalyzer` numeric layer), over `ℝ` -/

noncomputable section

/-- `math.dot` on two equal-length vectors (the only way the analyzer
calls it): the sum of coordinatewise products. -/
def dotProduct (vecA vecB : List ℝ) : ℝ :=
  ((vecA.zip vecB).map (fun p => p.1 * p.2)).sum

/-- `math.norm` on a vector: the Euclidean norm. -/
def l2norm (vec : List ℝ) : ℝ :=
  Real.sqrt ((vec.map (fun x => x * x)).sum)

/-- `SemanticAnalyzer.cosineSimilarity`: `dot/(‖a‖·‖b‖)`, defined as `0`
when either norm is exactly `0`. -/
def cosineSimilarity (vecA vecB : List ℝ) : ℝ :=
  let dotP := dotProduct vecA vecB
  let normA := l2norm vecA
  let normB := l2norm vecB
  if normA = 0 ∨ normB = 0 then 0 else dotP / (normA * normB)

/-- The `distances` array accumulated by
`calculateCosineDistancesAndSignificantShifts`: one entry, `1 -`
similarity, per consecutive pair whose two units both carry an
embedding, in index order. -/
def cosineDistances (arr : List (SentenceObject ℝ)) : List ℝ :=
  (arr.zip arr.tail).filterMap fun p =>
    match p.1.combined_sentence_embedding, p.2.combined_sentence_embedding with
    | some ea, some eb => some (1 - cosineSimilarity ea eb)
    | _, _ => none

/-- The `updatedSentenceObjectArray` produced by the `map` inside
`calculateCosineDistancesAndSignificantShifts`: every unit before the
last whose pair both carry embeddings gets `distance_to_next`; all other
units get the field set to `undefined`. -/
def updatedWith (arr : List (SentenceObject ℝ)) : List (SentenceObject ℝ) :=
  arr.enum.map fun p =>
    let item := p.2
    match arr[p.1 + 1]? with
    | some nxt =>
      (match item.combined_sentence_embedding, nxt.combined_sentence_embedding with
       | some ea, some eb =>
         { item with distance_to_next := some (1 - cosineSimilarity ea eb) }
       | _, _ => { item with distance_to_next := none })
    | none => { item with distance_to_next := none }

/-- Insertion of one element into an ascending list. -/
def insertAsc (x : ℝ) : List ℝ → List ℝ
  | [] => [x]
  | y :: ys => if x ≤ y then x :: y :: ys else y :: insertAsc x ys

/-- `[...distances].sort((a, b) => a - b)`: the ascending sorted copy of
the distance array (the original is left untouched). -/
def sortAsc (l : List ℝ) : List ℝ := l.foldr insertAsc []

/-- The `quantile` function of `d3-array`, as invoked here: on the empty
array it returns `undefined` (`none`); otherwise `p ≤ 0` or fewer than
two values give the minimum, `p ≥ 1` the maximum, and in between it
interpolates linearly between the `⌊i⌋`-th and `⌊i⌋+1`-st order
statistics at `i = (n-1)·p`.  The analyzer always passes an
ascending-sorted array, for which d3's min/max and
quickselect-prefix/suffix reads are the plain indexing used here (`ℝ`
has no `NaN`, so d3's `isNaN` guard cannot fire). -/
def d3quantile (values : List ℝ) (p : ℝ) : Option ℝ :=
  match values with
  | [] => none
  | v :: vs =>
    let x := v :: vs
    let n := x.length
    if p ≤ 0 ∨ n < 2 then some v
    else if 1 ≤ p then some (x.getLast (List.cons_ne_nil _ _))
    else
      let i : ℝ := ((n : ℝ) - 1) * p
      let i0 : ℤ := ⌊i⌋
      let value0 := x.getD i0.toNat 0
      let value1 := x.getD (i0.toNat + 1) 0
      some (value0 + (value1 - value0) * (i - (i0 : ℝ)))

/-- Specification-side quantile, following the claim's words: the
classic R-7 linear-interpolation quantile of a sorted array `x` at
percentile `pct ∈ [0,100]`: with `m = |x|`, `h = (m-1)·(pct/100)`,
`lo = ⌊h⌋`, `hi = ⌈h⌉`, the result is
`x[lo] + (h-lo)·(x[hi]-x[lo])`. -/
def r7Quantile (x : List ℝ) (pct : ℝ) : ℝ :=
  let p := pct / 100
  let h : ℝ := ((x.length : ℝ) - 1) * p
  let lo : ℤ := ⌊h⌋
  let hi : ℤ := ⌈h⌉
  x.getD lo.toNat 0 + (h - (lo : ℝ)) * (x.getD hi.toNat 0 - x.getD lo.toNat 0)

/-- The `breakpointDistanceThreshold` computed inside
`calculateCosineDistancesAndSignificantShifts`: the d3 quantile of the
sorted copy of the distance array at `percentileThreshold / 100`. -/
def breakpointThreshold (arr : List (SentenceObject ℝ)) (percentileThreshold : ℝ) : Option ℝ :=
  d3quantile (sortAsc (cosineDistances arr)) (percentileThreshold / 100)

/-- `SemanticAnalyzer.calculateCosineDistancesAndSignificantShifts`:
throws (models as `Except.error`) when the quantile is `undefined`;
otherwise returns the enriched array together with the indices of
distances strictly above the threshold (a `map` to the index or `-1`,
then a `filter` keeping entries different from `-1`). -/
def calculateCosineDistancesAndSignificantShifts (sentenceObjectArray : List (SentenceObject ℝ))
    (percentileThreshold : ℝ) :
    Except String (List (SentenceObject ℝ) × List Int) :=
  let distances := cosineDistances sentenceObjectArray
  match breakpointThreshold sentenceObjectArray percentileThreshold with
  | none => .error "Failed to calculate breakpoint distance threshold"
  | some t =>
    .ok (updatedWith sentenceObjectArray,
      (distances.enum.map fun p => if t < p.2 then (p.1 : Int) else -1).filter (· != -1))

/-- `SemanticChunkingService.processTextFile` with its external
collaborators abstracted: the file loader's output is the `textCorpus`
argument and the embedding provider is the `embedDocuments` argument.
The call structures the subtitles with the configured `bufferSize`,
attaches embeddings, computes distances and significant shifts with the
configured `percentileThreshold`, and groups the units into chunks. -/
def processTextFile (embedDocuments : List String → List (List ℝ))
    (textCorpus : String) (bufferSize : Nat) (percentileThreshold : ℝ) :
    Except String (List Chunk) :=
  let structuredSentences : List (SentenceObject ℝ) := structureSubtitles textCorpus bufferSize
  let sentencesWithEmbeddings := generateAndAttachEmbeddings embedDocuments structuredSentences
  match calculateCosineDistancesAndSignificantShifts sentencesWithEmbeddings percentileThreshold with
  | .error e => .error e
  | .ok (updatedArray, significantShiftIndices) =>
    groupSentencesIntoChunks updatedArray significantShiftIndices

end

/-! ### Supporting lemmas: norms and cosine similarity -/

lemma sumSq_nonneg (v : List ℝ) : 0 ≤ (v.map (fun x => x * x)).sum :=
  List.sum_nonneg (fun x hx => by
    obtain ⟨y, -, rfl⟩ := List.mem_map.1 hx
    exact mul_self_nonneg y)

lemma l2norm_eq_zero_iff (v : List ℝ) : l2norm v = 0 ↔ (v.map (fun x => x * x)).sum = 0 :=
  Real.sqrt_eq_zero (sumSq_nonneg v)

lemma dotProduct_cons (a b : ℝ) (s t : List ℝ) :
    dotProduct (a :: s) (b :: t) = a * b + dotProduct s t := by
  simp [dotProduct]

lemma dotProduct_self (v : List ℝ) : dotProduct v v = (v.map (fun x => x * x)).sum := by
  induction v with
  | nil => rfl
  | cons a t ih => rw [dotProduct_cons, ih, List.map_cons, List.sum_cons]

lemma sumSq_pos_of_ne_zero {v : List ℝ} {x : ℝ} (hx : x ∈ v) (hne : x ≠ 0) :
    0 < (v.map (fun y => y * y)).sum := by
  have h1 : x * x ≤ (v.map (fun y => y * y)).sum := by
    refine List.single_le_sum (fun y hy => ?_) _ (List.mem_map_of_mem _ hx)
    obtain ⟨z, -, rfl⟩ := List.mem_map.1 hy
    exact mul_self_nonneg z
  have h2 : 0 < x * x := mul_self_pos.2 hne
  linarith

lemma cosineSimilarity_of_norm_ne {a b : List ℝ} (ha : l2norm a ≠ 0) (hb : l2norm b ≠ 0) :
    cosineSimilarity a b = dotProduct a b / (l2norm a * l2norm b) := by
  unfold cosineSimilarity
  rw [if_neg]
  push_neg
  exact ⟨ha, hb⟩

lemma cosineSimilarity_of_norm_zero {a b : List ℝ} (h : l2norm a = 0 ∨ l2norm b = 0) :
    cosineSimilarity a b = 0 := by
  unfold cosineSimilarity
  rw [if_pos h]

lemma cosineSimilarity_self {v : List ℝ} (h : ∃ x ∈ v, x ≠ 0) :
    cosineSimilarity v v = 1 := by
  obtain ⟨x, hxv, hx0⟩ := h
  have hpos := sumSq_pos_of_ne_zero hxv hx0
  have hnorm : l2norm v ≠ 0 := ne_of_gt (Real.sqrt_pos.2 hpos)
  rw [cosineSimilarity_of_norm_ne hnorm hnorm, dotProduct_self]
  rw [show l2norm v * l2norm v = (v.map (fun x => x * x)).sum from
    Real.mul_self_sqrt (sumSq_nonneg v)]
  exact div_self (ne_of_gt hpos)

lemma l2norm_replicate_zero (n : Nat) : l2norm (List.replicate n 0) = 0 := by
  simp [l2norm]

/-- C8: for equal-length vectors, `cosineSimilarity` is
`dot/(‖a‖·‖b‖)` when both norms are nonzero and exactly `0` (no error)
when either norm is zero; every recorded consecutive-pair distance is
`1 - similarity`; `cosineSimilarity v v = 1` for nonzero `v`, and
`cosineSimilarity v zeroVector = 0`. -/
theorem claim_C8_cosine_similarity :
    (∀ vecA vecB : List ℝ, vecA.length = vecB.length →
      (l2norm vecA = 0 ∨ l2norm vecB = 0 → cosineSimilarity vecA vecB = 0) ∧
      (l2norm vecA ≠ 0 → l2norm vecB ≠ 0 →
        cosineSimilarity vecA vecB = dotProduct vecA vecB / (l2norm vecA * l2norm vecB))) ∧
    (∀ (arr : List (SentenceObject ℝ)) (i : Nat) (a b : SentenceObject ℝ) (ea eb : List ℝ),
      arr[i]? = some a → arr[i + 1]? = some b →
      a.combined_sentence_embedding = some ea → b.combined_sentence_embedding = some eb →
      ∃ u, (updatedWith arr)[i]? = some u ∧
        u.distance_to_next = some (1 - cosineSimilarity ea eb)) ∧
    (∀ v : List ℝ, (∃ x ∈ v, x ≠ 0) → cosineSimilarity v v = 1) ∧
    (∀ v : List ℝ, cosineSimilarity v (List.replicate v.length 0) = 0) := by
  refine ⟨fun vecA vecB _ => ⟨cosineSimilarity_of_norm_zero, cosineSimilarity_of_norm_ne⟩,
    ?_, fun v h => cosineSimilarity_self h,
    fun v => cosineSimilarity_of_norm_zero (Or.inr (l2norm_replicate_zero _))⟩
  intro arr i a b ea eb hia hib hea heb
  refine ⟨{ a with distance_to_next := some (1 - cosineSimilarity ea eb) }, ?_, rfl⟩
  unfold updatedWith
  simp only [List.getElem?_map, List.getElem?_enum, hia, Option.map_some', hib, hea, heb]

/-- Closed instance check for `claim_C8_cosine_similarity`. -/
theorem claim_C8_cosine_similarity_witness :
    cosineSimilarity [(1 : ℝ)] [(1 : ℝ)] = 1 ∧
    cosineSimilarity [(1 : ℝ), 2] (List.replicate 2 0) = 0 :=
  ⟨claim_C8_cosine_similarity.2.2.1 [(1 : ℝ)] ⟨1, List.mem_singleton.2 rfl, one_ne_zero⟩,
   claim_C8_cosine_similarity.2.2.2 [(1 : ℝ), 2]⟩

/-! ### Supporting lemmas: distances, sorting and the d3 quantile -/

lemma insertAsc_ne_nil (x : ℝ) (l : List ℝ) : insertAsc x l ≠ [] := by
  cases l with
  | nil => simp [insertAsc]
  | cons y ys => unfold insertAsc; split <;> simp

lemma sortAsc_eq_nil_iff (l : List ℝ) : sortAsc l = [] ↔ l = [] := by
  cases l with
  | nil => simp [sortAsc]
  | cons x xs =>
    simp only [sortAsc, List.foldr_cons]
    exact iff_of_false (insertAsc_ne_nil _ _) (by simp)

lemma d3quantile_isSome (v : ℝ) (vs : List ℝ) (p : ℝ) : (d3quantile (v :: vs) p).isSome := by
  simp only [d3quantile]
  split
  · rfl
  · split
    · rfl
    · rfl

lemma d3quantile_eq_none_iff (values : List ℝ) (p : ℝ) :
    d3quantile values p = none ↔ values = [] := by
  cases values with
  | nil => simp [d3quantile]
  | cons v vs =>
    refine iff_of_false (fun h => ?_) (by simp)
    have := d3quantile_isSome v vs p
    rw [h] at this
    simp at this

lemma cosineDistances_cons₂ (a b : SentenceObject ℝ) (rest : List (SentenceObject ℝ))
    (ea eb : List ℝ) (hea : a.combined_sentence_embedding = some ea)
    (heb : b.combined_sentence_embedding = some eb) :
    cosineDistances (a :: b :: rest) =
      (1 - cosineSimilarity ea eb) :: cosineDistances (b :: rest) := by
  unfold cosineDistances
  simp [hea, heb]

lemma cosineDistances_length {arr : List (SentenceObject ℝ)}
    (h : ∀ s ∈ arr, s.combined_sentence_embedding.isSome) :
    (cosineDistances arr).length = arr.length - 1 := by
  induction arr with
  | nil => rfl
  | cons a rest ih =>
    cases rest with
    | nil => rfl
    | cons b rest2 =>
      obtain ⟨ea, hea⟩ := Option.isSome_iff_exists.1 (h a (by simp))
      obtain ⟨eb, heb⟩ := Option.isSome_iff_exists.1 (h b (by simp))
      rw [cosineDistances_cons₂ a b rest2 ea eb hea heb]
      have hrec := ih (fun s hs => h s (List.mem_cons_of_mem _ hs))
      simp only [List.length_cons] at hrec ⊢
      omega

lemma breakpointThreshold_eq_none_iff (arr : List (SentenceObject ℝ)) (p : ℝ) :
    breakpointThreshold arr p = none ↔ cosineDistances arr = [] := by
  unfold breakpointThreshold
  rw [d3quantile_eq_none_iff, sortAsc_eq_nil_iff]

lemma calc_error_iff (arr : List (SentenceObject ℝ)) (p : ℝ) :
    (∃ e, calculateCosineDistancesAndSignificantShifts arr p = .error e) ↔
      breakpointThreshold arr p = none := by
  cases h : breakpointThreshold arr p with
  | none =>
    simp only [calculateCosineDistancesAndSignificantShifts, h, iff_true]
    exact ⟨_, rfl⟩
  | some t => simp [calculateCosineDistancesAndSignificantShifts, h]

/-- C2: with every unit carrying an embedding and any percentile in
`[0,100]`, the distance/threshold computation throws (the
`ComputationError`) exactly when the consecutive-pair distance array is
empty, which happens exactly when there are fewer than 2 units; no
default threshold is ever substituted. -/
theorem claim_C2_error_iff_lt_two_units :
    ∀ (arr : List (SentenceObject ℝ)) (p : ℝ),
    (∀ s ∈ arr, s.combined_sentence_embedding.isSome) → 0 ≤ p → p ≤ 100 →
    ((∃ e, calculateCosineDistancesAndSignificantShifts arr p = .error e) ↔
      cosineDistances arr = []) ∧
    (cosineDistances arr = [] ↔ arr.length < 2) := by
  intro arr p hemb _ _
  have hlen := cosineDistances_length hemb
  constructor
  · rw [calc_error_iff, breakpointThreshold_eq_none_iff]
  · rw [← List.length_eq_zero, hlen]
    omega

/-- Closed instance check for `claim_C2_error_iff_lt_two_units`: a
single-unit input with an embedding. -/
theorem claim_C2_error_iff_lt_two_units_witness :
    ((∃ e, calculateCosineDistancesAndSignificantShifts
        [(⟨"a", 0, none, some [1], none, none⟩ : SentenceObject ℝ)] 80 = .error e) ↔
      cosineDistances [(⟨"a", 0, none, some [1], none, none⟩ : SentenceObject ℝ)] = []) ∧
    (cosineDistances [(⟨"a", 0, none, some [1], none, none⟩ : SentenceObject ℝ)] = [] ↔
      ([(⟨"a", 0, none, some [1], none, none⟩ : SentenceObject ℝ)]).length < 2) :=
  claim_C2_error_iff_lt_two_units _ 80
    (by intro s hs; rw [List.mem_singleton] at hs; subst hs; rfl)
    (by norm_num) (by norm_num)

/-! ### Supporting lemmas: the d3 quantile equals the R-7 formula -/

lemma getLast_eq_getD (v : ℝ) (vs : List ℝ) :
    (v :: vs).getLast (List.cons_ne_nil v vs) = (v :: vs).getD ((v :: vs).length - 1) 0 := by
  rw [List.getLast_eq_getElem, List.getD_eq_getElem?_getD,
    List.getElem?_eq_getElem (by simp)]
  rfl

lemma d3quantile_eq_r7 (x : List ℝ) (hx : x ≠ []) (p : ℝ) (h0 : 0 ≤ p) (h100 : p ≤ 100) :
    d3quantile x (p / 100) = some (r7Quantile x p) := by
  obtain ⟨v, vs, rfl⟩ := List.exists_cons_of_ne_nil hx
  simp only [d3quantile, r7Quantile]
  by_cases hc1 : p / 100 ≤ 0 ∨ (v :: vs).length < 2
  · rw [if_pos hc1]
    have hh : (((v :: vs).length : ℝ) - 1) * (p / 100) = 0 := by
      rcases hc1 with hp0 | hm1
      · have : p / 100 = 0 := le_antisymm hp0 (by positivity)
        rw [this, mul_zero]
      · have : (v :: vs).length = 1 := by
          simp only [List.length_cons] at hm1 ⊢
          omega
        rw [this]
        norm_num
    rw [hh]
    norm_num
  · push_neg at hc1
    obtain ⟨hp0, hm2⟩ := hc1
    by_cases hc2 : 1 ≤ p / 100
    · rw [if_neg (by push_neg; exact ⟨hp0, hm2⟩), if_pos hc2]
      have hp1 : p / 100 = 1 :=
        le_antisymm (by rw [div_le_one (by norm_num : (0:ℝ) < 100)]; exact h100) hc2
      have hcast : (((v :: vs).length : ℝ) - 1) * (p / 100) =
          ((((v :: vs).length : ℤ) - 1 : ℤ) : ℝ) := by
        rw [hp1, mul_one]; push_cast; ring
      rw [hcast, Int.floor_intCast, Int.ceil_intCast]
      have htn : (((v :: vs).length : ℤ) - 1).toNat = (v :: vs).length - 1 := by
        simp only [List.length_cons]
        push_cast
        omega
      rw [htn, getLast_eq_getD, sub_self, zero_mul, add_zero]
    · rw [if_neg (by push_neg; exact ⟨hp0, hm2⟩), if_neg hc2]
      set i : ℝ := (((v :: vs).length : ℝ) - 1) * (p / 100) with hidef
      rcases eq_or_lt_of_le (Int.floor_le i) with heq | hlt
      · have hceil : (⌈i⌉ : ℤ) = ⌊i⌋ := by
          conv_lhs => rw [← heq]
          rw [Int.ceil_intCast]
        have hz : i - (⌊i⌋ : ℝ) = 0 := sub_eq_zero.2 heq.symm
        rw [hceil, hz, mul_zero, zero_mul, add_zero]
      · rw [show (⌈i⌉ : ℤ) = ⌊i⌋ + 1 from
          Int.ceil_eq_iff.2 ⟨by push_cast; linarith, by exact_mod_cast (Int.lt_floor_add_one i).le⟩]
        have hi0 : 0 ≤ ⌊i⌋ := Int.floor_nonneg.2 (by
          have h1 : (1:ℝ) ≤ ((v :: vs).length : ℝ) - 1 := by
            have h2 : ((2:ℕ) : ℝ) ≤ (((v :: vs).length : ℕ) : ℝ) := Nat.cast_le.2 hm2
            push_cast at h2
            linarith
          positivity)
        rw [show (⌊i⌋ + 1).toNat = ⌊i⌋.toNat + 1 by omega]
        ring_nf

/-- The recorded `distance_to_next` fields of the enriched array, read
off in index order, are exactly the distance array `D`. -/
lemma updated_filterMap_aux (arr : List (SentenceObject ℝ)) :
    ∀ (l : List (SentenceObject ℝ)) (k : Nat), (∀ j : Nat, l[j]? = arr[k + j]?) →
    ((l.enumFrom k).filterMap (fun p =>
      (match arr[p.1 + 1]? with
       | some nxt =>
         (match p.2.combined_sentence_embedding, nxt.combined_sentence_embedding with
          | some ea, some eb =>
            { p.2 with distance_to_next := some (1 - cosineSimilarity ea eb) }
          | _, _ => { p.2 with distance_to_next := none })
       | none => { p.2 with distance_to_next := none }).distance_to_next))
    = (l.zip l.tail).filterMap (fun q =>
        match q.1.combined_sentence_embedding, q.2.combined_sentence_embedding with
        | some ea, some eb => some (1 - cosineSimilarity ea eb)
        | _, _ => none) := by
  intro l
  induction l with
  | nil => intro k _; rfl
  | cons a rest ih =>
    intro k h
    have hrec := ih (k + 1) (fun j => by
      have hj := h (j + 1)
      rw [List.getElem?_cons_succ] at hj
      rw [show k + (j + 1) = k + 1 + j from by omega] at hj
      exact hj)
    cases rest with
    | nil =>
      have hnone : arr[k + 1]? = none := by
        have := h 1
        simpa using this.symm
      simp [List.enumFrom, List.filterMap_cons, hnone]
    | cons b rest2 =>
      have hsome : arr[k + 1]? = some b := by
        have := h 1
        simpa using this.symm
      simp only [List.enumFrom_cons, List.filterMap_cons, hsome, List.zip_cons_cons,
        List.tail_cons] at hrec ⊢
      cases ha : a.combined_sentence_embedding with
      | none => simpa [ha] using hrec
      | some ea =>
        cases hb : b.combined_sentence_embedding with
        | none => simpa [ha, hb] using hrec
        | some eb => simpa [ha, hb] using hrec

lemma updated_filterMap (arr : List (SentenceObject ℝ)) :
    (updatedWith arr).filterMap (·.distance_to_next) = cosineDistances arr := by
  unfold updatedWith cosineDistances
  rw [List.filterMap_map]
  exact updated_filterMap_aux arr arr 0 (fun j => by simp)

/-- C5: the breakpoint threshold is exactly the R-7 linear-interpolation
quantile of the sorted-ascending copy of the distance array `D`, and `D`
itself (as recorded in the enriched units, in index order) is left
unsorted. -/
theorem claim_C5_threshold_is_r7_quantile :
    ∀ (arr : List (SentenceObject ℝ)) (p : ℝ),
    cosineDistances arr ≠ [] → 0 ≤ p → p ≤ 100 →
    breakpointThreshold arr p = some (r7Quantile (sortAsc (cosineDistances arr)) p) ∧
    (updatedWith arr).filterMap (·.distance_to_next) = cosineDistances arr := by
  intro arr p hD h0 h100
  refine ⟨?_, updated_filterMap arr⟩
  unfold breakpointThreshold
  refine d3quantile_eq_r7 _ ?_ p h0 h100
  rwa [Ne, sortAsc_eq_nil_iff]

/-- Closed instance check for `claim_C5_threshold_is_r7_quantile`: two
units with embeddings. -/
theorem claim_C5_threshold_is_r7_quantile_witness :
    breakpointThreshold
        [(⟨"a", 0, none, some [1], none, none⟩ : SentenceObject ℝ),
         (⟨"b", 1, none, some [1], none, none⟩ : SentenceObject ℝ)] 50 =
      some (r7Quantile (sortAsc (cosineDistances
        [(⟨"a", 0, none, some [1], none, none⟩ : SentenceObject ℝ),
         (⟨"b", 1, none, some [1], none, none⟩ : SentenceObject ℝ)])) 50) ∧
    (updatedWith
        [(⟨"a", 0, none, some [1], none, none⟩ : SentenceObject ℝ),
         (⟨"b", 1, none, some [1], none, none⟩ : SentenceObject ℝ)]).filterMap
        (·.distance_to_next) =
      cosineDistances
        [(⟨"a", 0, none, some [1], none, none⟩ : SentenceObject ℝ),
         (⟨"b", 1, none, some [1], none, none⟩ : SentenceObject ℝ)] :=
  claim_C5_threshold_is_r7_quantile _ 50
    (by rw [cosineDistances_cons₂ _ _ _ [1] [1] rfl rfl]; simp)
    (by norm_num) (by norm_num)

/-! ### Supporting lemmas: the map/filter shift-index computation -/

lemma shifts_map_filter (t : ℝ) :
    ∀ (D : List ℝ) (k : Nat),
    ((D.enumFrom k).map fun q => if t < q.2 then (q.1 : Int) else -1).filter (· != -1)
    = ((List.range D.length).filter (fun i => decide (t < D.getD i 0))).map
        (fun i => ((i + k : Nat) : Int)) := by
  intro D
  induction D with
  | nil => intro k; rfl
  | cons d ds ih =>
    intro k
    have hk : (((k : Int) != -1) = true) := by
      simp only [bne_iff_ne, Ne]
      omega
    rw [List.enumFrom_cons, List.map_cons, List.filter_cons, List.length_cons,
      List.range_succ_eq_map, List.filter_cons]
    have htail : ((List.range ds.length).map Nat.succ).filter
        (fun i => decide (t < (d :: ds).getD i 0))
        = ((List.range ds.length).filter (fun i => decide (t < ds.getD i 0))).map Nat.succ := by
      rw [List.filter_map]
      congr 1
    have hmapmap : (((List.range ds.length).filter
          (fun i => decide (t < ds.getD i 0))).map Nat.succ).map
            (fun i => ((i + k : Nat) : Int))
        = ((List.range ds.length).filter (fun i => decide (t < ds.getD i 0))).map
            (fun i => ((i + (k + 1) : Nat) : Int)) := by
      rw [List.map_map]
      refine List.map_congr_left (fun i _ => ?_)
      simp only [Function.comp]
      congr 1
      omega
    by_cases ht : t < d
    · rw [if_pos ht, if_pos hk,
        if_pos (show (decide (t < (d :: ds).getD 0 0) = true) from by
          simpa using ht)]
      rw [htail, List.map_cons, ih (k + 1), hmapmap]
      simp
    · rw [if_neg ht,
        if_neg (show ¬(((-1 : Int) != -1) = true) from by simp),
        if_neg (show ¬(decide (t < (d :: ds).getD 0 0) = true) from by
          simpa using ht)]
      rw [htail, ih (k + 1), hmapmap]

/-- C6: with every unit carrying an embedding, the distance array has
one entry per unit boundary (`n - 1` of them), the returned
`significantShiftIndices` are exactly the ascending positions whose
distance is strictly above the threshold, and a distance exactly equal
to the threshold is never reported. -/
theorem claim_C6_shift_indices_strictly_above_threshold :
    ∀ (arr : List (SentenceObject ℝ)) (p t : ℝ)
      (upd : List (SentenceObject ℝ)) (shifts : List Int),
    (∀ s ∈ arr, s.combined_sentence_embedding.isSome) →
    calculateCosineDistancesAndSignificantShifts arr p = .ok (upd, shifts) →
    breakpointThreshold arr p = some t →
    (cosineDistances arr).length = arr.length - 1 ∧
    shifts = ((List.range (cosineDistances arr).length).filter
        (fun i => decide (t < (cosineDistances arr).getD i 0))).map (fun i : Nat => (i : Int)) ∧
    (∀ i : Nat, i < (cosineDistances arr).length →
      (cosineDistances arr).getD i 0 = t → (i : Int) ∉ shifts) := by
  intro arr p t upd shifts hemb hok hth
  have hshifts : shifts = (((cosineDistances arr).enum.map
      fun q => if t < q.2 then (q.1 : Int) else -1).filter (· != -1)) := by
    unfold calculateCosineDistancesAndSignificantShifts at hok
    rw [hth] at hok
    simp only [Except.ok.injEq, Prod.mk.injEq] at hok
    exact hok.2.symm
  have h2 : shifts = ((List.range (cosineDistances arr).length).filter
      (fun i => decide (t < (cosineDistances arr).getD i 0))).map (fun i : Nat => (i : Int)) := by
    unfold List.enum at hshifts
    rw [hshifts, shifts_map_filter]
    refine List.map_congr_left (fun i _ => ?_)
    norm_num
  refine ⟨cosineDistances_length hemb, h2, ?_⟩
  intro i _ hieq hmem
  rw [h2] at hmem
  simp only [List.mem_map, List.mem_filter, List.mem_range] at hmem
  obtain ⟨j, ⟨-, hjc⟩, hji⟩ := hmem
  have hje : j = i := by exact_mod_cast hji
  subst hje
  rw [hieq] at hjc
  simp at hjc

/-- Closed instance check for
`claim_C6_shift_indices_strictly_above_threshold`: two units with equal
embeddings, whose single distance equals the threshold and so produces
no shift. -/
theorem claim_C6_shift_indices_strictly_above_threshold_witness :
    (cosineDistances
        [(⟨"a", 0, none, some [1], none, none⟩ : SentenceObject ℝ),
         (⟨"b", 1, none, some [1], none, none⟩ : SentenceObject ℝ)]).length =
      ([(⟨"a", 0, none, some [1], none, none⟩ : SentenceObject ℝ),
        (⟨"b", 1, none, some [1], none, none⟩ : SentenceObject ℝ)]).length - 1 ∧
    ([] : List Int) = ((List.range (cosineDistances
        [(⟨"a", 0, none, some [1], none, none⟩ : SentenceObject ℝ),
         (⟨"b", 1, none, some [1], none, none⟩ : SentenceObject ℝ)]).length).filter
        (fun i => decide ((1 - cosineSimilarity [(1:ℝ)] [(1:ℝ)]) <
          (cosineDistances
            [(⟨"a", 0, none, some [1], none, none⟩ : SentenceObject ℝ),
             (⟨"b", 1, none, some [1], none, none⟩ : SentenceObject ℝ)]).getD i 0))).map
        (fun i : Nat => (i : Int)) ∧
    (∀ i : Nat, i < (cosineDistances
        [(⟨"a", 0, none, some [1], none, none⟩ : SentenceObject ℝ),
         (⟨"b", 1, none, some [1], none, none⟩ : SentenceObject ℝ)]).length →
      (cosineDistances
        [(⟨"a", 0, none, some [1], none, none⟩ : SentenceObject ℝ),
         (⟨"b", 1, none, some [1], none, none⟩ : SentenceObject ℝ)]).getD i 0 =
        (1 - cosineSimilarity [(1:ℝ)] [(1:ℝ)]) →
      (i : Int) ∉ ([] : List Int)) := by
  have hD : cosineDistances
      [(⟨"a", 0, none, some [1], none, none⟩ : SentenceObject ℝ),
       (⟨"b", 1, none, some [1], none, none⟩ : SentenceObject ℝ)] =
      [1 - cosineSimilarity [(1:ℝ)] [(1:ℝ)]] :=
    cosineDistances_cons₂ _ _ _ [1] [1] rfl rfl
  have hth : breakpointThreshold
      [(⟨"a", 0, none, some [1], none, none⟩ : SentenceObject ℝ),
       (⟨"b", 1, none, some [1], none, none⟩ : SentenceObject ℝ)] 50 =
      some (1 - cosineSimilarity [(1:ℝ)] [(1:ℝ)]) := by
    unfold breakpointThreshold
    rw [hD]
    show d3quantile [1 - cosineSimilarity [(1:ℝ)] [(1:ℝ)]] (50 / 100) =
      some (1 - cosineSimilarity [(1:ℝ)] [(1:ℝ)])
    simp only [d3quantile]
    rw [if_pos (Or.inr (by norm_num))]
  refine claim_C6_shift_indices_strictly_above_threshold _ 50
    (1 - cosineSimilarity [(1:ℝ)] [(1:ℝ)])
    (updatedWith
      [(⟨"a", 0, none, some [1], none, none⟩ : SentenceObject ℝ),
       (⟨"b", 1, none, some [1], none, none⟩ : SentenceObject ℝ)]) []
    (by intro s hs
        simp only [List.mem_cons, List.not_mem_nil, or_false] at hs
        rcases hs with h | h <;> subst h <;> rfl) ?_ hth
  unfold calculateCosineDistancesAndSignificantShifts
  rw [hth, hD]
  simp [List.enum, List.enumFrom, lt_irrefl]

/-! ### Supporting lemmas: grouping, ranges and the partition invariant -/

lemma WFCover_append (l1 l2 : List Chunk) :
    ∀ (a n : Nat), WFCover a (l1 ++ l2) n ↔ ∃ m, WFCover a l1 m ∧ WFCover m l2 n := by
  induction l1 with
  | nil =>
    intro a n
    constructor
    · intro h; exact ⟨a, rfl, h⟩
    · rintro ⟨m, hm, h⟩; cases hm; exact h
  | cons c rest ih =>
    intro a n
    constructor
    · rintro ⟨e, he, hr, hcov⟩
      obtain ⟨m, h1, h2⟩ := (ih (e + 1) n).1 hcov
      exact ⟨m, ⟨e, he, hr, h1⟩, h2⟩
    · rintro ⟨m, ⟨e, he, hr, h1⟩, h2⟩
      exact ⟨e, he, hr, (ih (e + 1) n).2 ⟨m, h1, h2⟩⟩

lemma WFCover_le : ∀ (cs : List Chunk) (a n : Nat), WFCover a cs n → a ≤ n := by
  intro cs
  induction cs with
  | nil => intro a n h; exact h.le
  | cons c rest ih =>
    rintro a n ⟨e, he, -, hcov⟩
    have := ih (e + 1) n hcov
    omega

lemma WFCover_sum : ∀ (cs : List Chunk) (a n : Nat), WFCover a cs n →
    (cs.map countVal).sum = n - a := by
  intro cs
  induction cs with
  | nil => intro a n h; cases h; simp
  | cons c rest ih =>
    rintro a n ⟨e, he, ⟨-, -, h3⟩, hcov⟩
    have hsum := ih (e + 1) n hcov
    have hle := WFCover_le rest (e + 1) n hcov
    simp only [List.map_cons, List.sum_cons, hsum, countVal, h3, Option.getD_some]
    omega

lemma groupChunk_range {α : Type} (group : List (SentenceObject α))
    (first last_ : SentenceObject α) :
    (groupChunk group first last_).metadata.bind (·.startSentenceIndex) = some first.index ∧
    (groupChunk group first last_).metadata.bind (·.endSentenceIndex) = some last_.index ∧
    (groupChunk group first last_).metadata.bind (·.sentenceCount) = some group.length := by
  unfold groupChunk
  rcases first.metadata with - | md1 <;> rcases last_.metadata with - | md2 <;>
    simp only [Option.bind_some] <;> try exact ⟨rfl, rfl, rfl⟩
  all_goals split <;> exact ⟨rfl, rfl, rfl⟩

lemma index_of_pos {α : Type} {arr : List (SentenceObject α)}
    (hidx : arr.map (·.index) = List.range arr.length) {m : Nat} (hm : m < arr.length) :
    (arr[m]).index = m := by
  have hm1 : m < (arr.map (·.index)).length := by simpa using hm
  have hm2 : m < (List.range arr.length).length := by simpa using hm
  have h1 : (arr.map (·.index))[m] = (List.range arr.length)[m] := by
    congr 1
  simpa using h1

lemma groupGo_spec {α : Type} (arr : List (SentenceObject α))
    (hidx : arr.map (·.index) = List.range arr.length) :
    ∀ (bs : List Int) (s : Nat) (chunks : List Chunk),
    List.Pairwise (· < ·) bs →
    (∀ b ∈ bs, (s : Int) ≤ b ∧ b < (arr.length : Int)) →
    ∃ newChunks, groupGo arr bs s chunks = .ok (chunks ++ newChunks) ∧
      WFCover s newChunks (bs.getLast?.elim s (fun b => b.toNat + 1)) := by
  intro bs
  induction bs with
  | nil => intro s chunks _ _; exact ⟨[], by simp [groupGo], rfl⟩
  | cons b bs' ih =>
    intro s chunks hpw hbnd
    obtain ⟨hsb, hbn⟩ := hbnd b (List.mem_cons_self _ _)
    have hbeq : ((b.toNat : Int)) = b := Int.toNat_of_nonneg (le_trans (Int.natCast_nonneg s) hsb)
    have hsbn : s ≤ b.toNat := by omega
    have hbnlt : b.toNat < arr.length := by omega
    have hslice : jsSlice arr s (b + 1) = (arr.take (b.toNat + 1)).drop s := by
      unfold jsSlice
      rw [show (b + 1).toNat = b.toNat + 1 from by omega]
    have hlen : ((arr.take (b.toNat + 1)).drop s).length = b.toNat + 1 - s := by
      simp only [List.length_drop, List.length_take]
      omega
    have hne : (arr.take (b.toNat + 1)).drop s ≠ [] := by
      intro hcon
      rw [hcon] at hlen
      simp at hlen
      omega
    obtain ⟨first, tail, hft⟩ := List.exists_cons_of_ne_nil hne
    have hpw' := List.pairwise_cons.1 hpw
    obtain ⟨hnew, hgo, hcov⟩ := ih (b.toNat + 1) (chunks ++ [groupChunk (first :: tail) first
        ((first :: tail).getLast (List.cons_ne_nil _ _))]) hpw'.2
      (fun b' hb' => ⟨by have := hpw'.1 b' hb'; omega, (hbnd b' (List.mem_cons_of_mem _ hb')).2⟩)
    refine ⟨groupChunk (first :: tail) first
        ((first :: tail).getLast (List.cons_ne_nil _ _)) :: hnew, ?_, ?_⟩
    · simp only [groupGo, hslice, hft]
      rw [show (b + 1).toNat = b.toNat + 1 from by omega, hgo]
      simp
    · -- the head chunk covers [s, b.toNat]
      have hfl : (first :: tail).length = b.toNat + 1 - s := by rw [← hft]; exact hlen
      have hdt : ∀ j : Nat, j < b.toNat + 1 - s →
          ((arr.take (b.toNat + 1)).drop s)[j]? = arr[s + j]? := by
        intro j hj
        rw [List.getElem?_drop, List.getElem?_take, if_pos (by omega)]
      have hs_lt : s < arr.length := by omega
      have hfirst : first = arr[s] := by
        have h0 := hdt 0 (by omega)
        rw [hft, Nat.add_zero, List.getElem?_eq_getElem (by omega : s < arr.length)] at h0
        simp only [List.getElem?_cons_zero] at h0
        exact Option.some.inj h0
      have hlast : (first :: tail).getLast (List.cons_ne_nil _ _) = arr[b.toNat] := by
        have h0 := hdt (b.toNat - s) (by omega)
        rw [hft, show s + (b.toNat - s) = b.toNat from by omega,
          List.getElem?_eq_getElem hbnlt] at h0
        have h2 : (first :: tail).getLast? = some (arr[b.toNat]) := by
          rw [List.getLast?_eq_getElem?, hfl,
            show b.toNat + 1 - s - 1 = b.toNat - s from by omega]
          exact h0
        rw [List.getLast?_eq_getLast_of_ne_nil (List.cons_ne_nil first tail)] at h2
        exact Option.some.inj h2
      obtain ⟨hr1, hr2, hr3⟩ := groupChunk_range (first :: tail) first
        ((first :: tail).getLast (List.cons_ne_nil _ _))
      refine ⟨b.toNat, hsbn, ⟨?_, ?_, ?_⟩, ?_⟩
      · rw [hr1, hfirst, index_of_pos hidx]
      · rw [hr2, hlast, index_of_pos hidx]
      · rw [hr3, hfl]
      · -- tail cover; align the two `getLast?.elim` end points
        cases bs' with
        | nil => simpa using hcov
        | cons x xs => rw [List.getLast?_cons_cons]; simpa using hcov

lemma mergeTwoChunks_range {c1 c2 : Chunk} {s1 e1 e2 : Nat}
    (h1 : chunkHasRange c1 s1 e1) (h2 : chunkHasRange c2 (e1 + 1) e2)
    (hs1 : s1 ≤ e1) (hs2 : e1 + 1 ≤ e2) :
    chunkHasRange (mergeTwoChunks c1 c2) s1 e2 := by
  obtain ⟨ha, hb, hc⟩ := h1
  obtain ⟨hd, he, hf⟩ := h2
  unfold mergeTwoChunks chunkHasRange
  simp only [Option.bind_some]
  refine ⟨ha, he, ?_⟩
  rw [hc, hf]
  exact congrArg some (by simp only [Option.getD_some]; omega)

lemma mergeGo_cover (minS : Nat) (acc rest : List Chunk) :
    ∀ (a n : Nat), WFCover 0 acc a → WFCover a rest n →
    WFCover 0 (mergeShortChunksGo minS acc rest) n := by
  induction acc, rest using mergeShortChunksGo.induct minS with
  | case1 acc =>
    intro a n hacc hrest
    cases hrest
    rw [mergeShortChunksGo.eq_1]
    exact hacc
  | case2 acc c rest hcnt ih =>
    intro a n hacc hrest
    obtain ⟨e, hae, hr, hcov⟩ := hrest
    rw [show mergeShortChunksGo minS acc (c :: rest) =
      mergeShortChunksGo minS (acc ++ [c]) rest from by
        cases rest with
        | nil => rw [mergeShortChunksGo.eq_3, if_pos hcnt]
        | cons r rs => rw [mergeShortChunksGo.eq_2, if_pos hcnt]]
    refine ih (e + 1) n ?_ hcov
    rw [WFCover_append]
    exact ⟨a, hacc, e, hae, hr, rfl⟩
  | case3 acc c rest hcnt prev hlast ih =>
    intro a n hacc hrest
    obtain ⟨e, hae, hr, hcov⟩ := hrest
    rw [show mergeShortChunksGo minS acc (c :: rest) =
      mergeShortChunksGo minS (acc.dropLast ++ [mergeTwoChunks prev c]) rest from by
        cases rest with
        | nil => rw [mergeShortChunksGo.eq_3, if_neg hcnt, hlast]
        | cons r rs => rw [mergeShortChunksGo.eq_2, if_neg hcnt, hlast]]
    have hacc_eq : acc.dropLast ++ [prev] = acc :=
      List.dropLast_append_getLast? prev (Option.mem_def.2 hlast)
    rw [← hacc_eq] at hacc
    obtain ⟨m, hdl, hprev⟩ := (WFCover_append _ _ 0 a).1 hacc
    obtain ⟨e', hme', hr', htail⟩ := hprev
    have ha' : e' + 1 = a := htail
    refine ih (e + 1) n ?_ hcov
    rw [WFCover_append]
    refine ⟨m, hdl, e, by omega, ?_, rfl⟩
    exact mergeTwoChunks_range hr' (by rwa [ha']) hme' (by omega)
  | case4 acc c hcnt hlast next rest2 ih =>
    intro a n hacc hrest
    have hacc0 : acc = [] := List.getLast?_eq_none_iff.1 hlast
    subst hacc0
    have ha0 : (0 : Nat) = a := hacc
    subst ha0
    obtain ⟨e, hae, hr, hcov⟩ := hrest
    obtain ⟨e2, he2, hr2, hcov2⟩ := hcov
    rw [show mergeShortChunksGo minS [] (c :: next :: rest2) =
      mergeShortChunksGo minS ([] ++ [mergeTwoChunks c next]) rest2 from by
        rw [mergeShortChunksGo.eq_2, if_neg hcnt, hlast]]
    refine ih (e2 + 1) n ?_ hcov2
    refine ⟨e2, by omega, ?_, rfl⟩
    exact mergeTwoChunks_range hr hr2 hae he2
  | case5 acc c hcnt hlast =>
    intro a n hacc hrest
    have hacc0 : acc = [] := List.getLast?_eq_none_iff.1 hlast
    subst hacc0
    have ha0 : (0 : Nat) = a := hacc
    subst ha0
    obtain ⟨e, hae, hr, hcov⟩ := hrest
    rw [show mergeShortChunksGo minS [] [c] = [] ++ [c] from by
      rw [mergeShortChunksGo.eq_3, if_neg hcnt, hlast]]
    exact ⟨e, hae, hr, hcov⟩

lemma mergeShortChunks_cover (cs : List Chunk) (n minS : Nat) (h : WFCover 0 cs n) :
    WFCover 0 (mergeShortChunks cs minS) n := by
  unfold mergeShortChunks
  split
  · exact h
  · exact mergeGo_cover minS [] cs 0 n rfl h

lemma groupSentences_raw_spec {α : Type} (arr : List (SentenceObject α)) (shifts : List Int)
    (hne : arr ≠ [])
    (hidx : arr.map (·.index) = List.range arr.length)
    (hch : List.Chain' (· < ·) shifts)
    (hbnd : ∀ b ∈ shifts, 0 ≤ b ∧ b ≤ (arr.length : Int) - 2) :
    ∃ raw, groupGo arr (shifts ++ [(arr.length : Int) - 1]) 0 [] = .ok raw ∧
      WFCover 0 raw arr.length := by
  have hn1 : 0 < arr.length := List.length_pos.2 hne
  have hpw : List.Pairwise (· < ·) (shifts ++ [(arr.length : Int) - 1]) := by
    rw [List.pairwise_append]
    refine ⟨List.chain'_iff_pairwise.1 hch, List.pairwise_singleton _ _, ?_⟩
    intro x hx y hy
    rw [List.mem_singleton] at hy
    subst hy
    have := (hbnd x hx).2
    omega
  have hbnd' : ∀ b ∈ shifts ++ [(arr.length : Int) - 1],
      ((0 : Nat) : Int) ≤ b ∧ b < (arr.length : Int) := by
    intro b hb
    rcases List.mem_append.1 hb with h | h
    · have := hbnd b h
      constructor <;> omega
    · rw [List.mem_singleton] at h
      subst h
      constructor <;> omega
  obtain ⟨raw, hgo, hcov⟩ := groupGo_spec arr hidx _ 0 [] hpw hbnd'
  refine ⟨raw, by simpa using hgo, ?_⟩
  rw [List.getLast?_concat] at hcov
  simp only [Option.elim] at hcov
  rwa [show ((arr.length : Int) - 1).toNat + 1 = arr.length from by omega] at hcov

/-- C10: grouping is total exactly on non-empty inputs: with a non-empty
unit sequence, position-correct indices, and ascending shift indices in
`[0, n-2]`, every sliced group is non-empty and the grouping returns
`.ok`; on the empty sequence the sentinel breakpoint is `-1`, the slice
is empty, reading its first element is the JS `TypeError`, and no empty
chunk list is returned. -/
theorem claim_C10_grouping_total_iff_nonempty :
    (∀ (α : Type) (arr : List (SentenceObject α)) (shifts : List Int),
      arr ≠ [] →
      arr.map (·.index) = List.range arr.length →
      List.Chain' (· < ·) shifts →
      (∀ b ∈ shifts, 0 ≤ b ∧ b ≤ (arr.length : Int) - 2) →
      ∃ cs, groupSentencesIntoChunks arr shifts = .ok cs) ∧
    (∀ α : Type, groupSentencesIntoChunks ([] : List (SentenceObject α)) [] =
      .error "TypeError: Cannot read properties of undefined") := by
  constructor
  · intro α arr shifts hne hidx hch hbnd
    obtain ⟨raw, hgo, -⟩ := groupSentences_raw_spec arr shifts hne hidx hch hbnd
    refine ⟨mergeShortChunks raw 2, ?_⟩
    simp only [groupSentencesIntoChunks, hgo]
  · intro α
    rfl

/-- Closed instance check for `claim_C10_grouping_total_iff_nonempty`. -/
theorem claim_C10_grouping_total_iff_nonempty_witness :
    (∃ cs, groupSentencesIntoChunks
      [(⟨"s0", 0, none, none, none, none⟩ : SentenceObject Unit),
       (⟨"s1", 1, none, none, none, none⟩ : SentenceObject Unit),
       (⟨"s2", 2, none, none, none, none⟩ : SentenceObject Unit)] [0] = .ok cs) ∧
    groupSentencesIntoChunks ([] : List (SentenceObject Unit)) [] =
      .error "TypeError: Cannot read properties of undefined" :=
  ⟨claim_C10_grouping_total_iff_nonempty.1 Unit _ [0]
      (List.cons_ne_nil _ _) rfl (List.chain'_singleton _)
      (by intro b hb; rw [List.mem_singleton] at hb; subst hb; refine ⟨le_refl 0, ?_⟩; norm_num),
   claim_C10_grouping_total_iff_nonempty.2 Unit⟩

/-- C3: for a non-empty sequence with position-correct indices and any
strictly ascending shift-index list within `[0, n-2]`, the grouped and
merged chunk list partitions `[0, n-1]` exactly (in order, no gap, no
overlap), and the `sentenceCount` values sum to `n`. -/
theorem claim_C3_chunks_partition_range :
    ∀ (α : Type) (arr : List (SentenceObject α)) (shifts : List Int),
      arr ≠ [] →
      arr.map (·.index) = List.range arr.length →
      List.Chain' (· < ·) shifts →
      (∀ b ∈ shifts, 0 ≤ b ∧ b ≤ (arr.length : Int) - 2) →
      ∃ cs, groupSentencesIntoChunks arr shifts = .ok cs ∧
        WFCover 0 cs arr.length ∧
        (cs.map countVal).sum = arr.length := by
  intro α arr shifts hne hidx hch hbnd
  obtain ⟨raw, hgo, hcov⟩ := groupSentences_raw_spec arr shifts hne hidx hch hbnd
  have hcov' := mergeShortChunks_cover raw arr.length 2 hcov
  refine ⟨mergeShortChunks raw 2, ?_, hcov', ?_⟩
  · simp only [groupSentencesIntoChunks, hgo]
  · have := WFCover_sum _ 0 arr.length hcov'
    simpa using this

/-- Closed instance check for `claim_C3_chunks_partition_range`. -/
theorem claim_C3_chunks_partition_range_witness :
    ∃ cs, groupSentencesIntoChunks
      [(⟨"s0", 0, none, none, none, none⟩ : SentenceObject Unit),
       (⟨"s1", 1, none, none, none, none⟩ : SentenceObject Unit),
       (⟨"s2", 2, none, none, none, none⟩ : SentenceObject Unit)] [1] = .ok cs ∧
      WFCover 0 cs 3 ∧ (cs.map countVal).sum = 3 :=
  claim_C3_chunks_partition_range Unit _ [1]
    (List.cons_ne_nil _ _) rfl (List.chain'_singleton _)
    (by intro b hb; rw [List.mem_singleton] at hb; subst hb; constructor <;> norm_num)

/-! ### Supporting lemmas: the short-chunk merge and sentence counts -/

lemma chunkCount_of_some {c : Chunk} {k : Nat}
    (h : c.metadata.bind (·.sentenceCount) = some k) (hk : k ≠ 0) : chunkCount c = k := by
  unfold chunkCount
  rw [h]
  simp [hk]

lemma mergeTwoChunks_count (c1 c2 : Chunk) :
    (mergeTwoChunks c1 c2).metadata.bind (·.sentenceCount) =
      some ((c1.metadata.bind (·.sentenceCount)).getD 0 +
        (c2.metadata.bind (·.sentenceCount)).getD 0) := rfl

lemma mergeGo_counts (minS : Nat) (hm : 2 ≤ minS) (cs : List Chunk) :
    ∀ (acc rest : List Chunk),
    (∀ c ∈ acc, ∃ k, (c.metadata.bind (·.sentenceCount)) = some k ∧ 2 ≤ k) →
    (∀ c ∈ rest, ∃ k, (c.metadata.bind (·.sentenceCount)) = some k ∧ 1 ≤ k) →
    (acc = [] → rest = cs) →
    2 ≤ (cs.map countVal).sum →
    ∀ c ∈ mergeShortChunksGo minS acc rest, ∃ k,
      (c.metadata.bind (·.sentenceCount)) = some k ∧ 2 ≤ k := by
  intro acc rest
  induction acc, rest using mergeShortChunksGo.induct minS with
  | case1 acc =>
    intro hacc _ _ _
    rw [mergeShortChunksGo.eq_1]
    exact hacc
  | case2 acc c rest hcnt ih =>
    intro hacc hrest hinit hsum
    rw [show mergeShortChunksGo minS acc (c :: rest) =
      mergeShortChunksGo minS (acc ++ [c]) rest from by
        cases rest with
        | nil => rw [mergeShortChunksGo.eq_3, if_pos hcnt]
        | cons r rs => rw [mergeShortChunksGo.eq_2, if_pos hcnt]]
    refine ih ?_ (fun c' hc' => hrest c' (List.mem_cons_of_mem _ hc')) (by simp) hsum
    intro c' hc'
    rcases List.mem_append.1 hc' with h | h
    · exact hacc c' h
    · rw [List.mem_singleton] at h
      subst h
      obtain ⟨k, hk, hk1⟩ := hrest c' (List.mem_cons_self _ _)
      refine ⟨k, hk, ?_⟩
      have := chunkCount_of_some hk (by omega)
      omega
  | case3 acc c rest hcnt prev hlast ih =>
    intro hacc hrest hinit hsum
    rw [show mergeShortChunksGo minS acc (c :: rest) =
      mergeShortChunksGo minS (acc.dropLast ++ [mergeTwoChunks prev c]) rest from by
        cases rest with
        | nil => rw [mergeShortChunksGo.eq_3, if_neg hcnt, hlast]
        | cons r rs => rw [mergeShortChunksGo.eq_2, if_neg hcnt, hlast]]
    have hacc_eq : acc.dropLast ++ [prev] = acc :=
      List.dropLast_append_getLast? prev (Option.mem_def.2 hlast)
    have hprevmem : prev ∈ acc := by
      rw [← hacc_eq]
      exact List.mem_append_right _ (List.mem_singleton_self _)
    obtain ⟨kp, hkp, hkp2⟩ := hacc prev hprevmem
    obtain ⟨kc, hkc, hkc1⟩ := hrest c (List.mem_cons_self _ _)
    refine ih ?_ (fun c' hc' => hrest c' (List.mem_cons_of_mem _ hc')) (by simp) hsum
    intro c' hc'
    rcases List.mem_append.1 hc' with h | h
    · exact hacc c' (List.Sublist.subset (List.dropLast_sublist acc) h)
    · rw [List.mem_singleton] at h
      subst h
      refine ⟨kp + kc, ?_, by omega⟩
      rw [mergeTwoChunks_count, hkp, hkc]
      rfl
  | case4 acc c hcnt hlast next rest2 ih =>
    intro hacc hrest hinit hsum
    have hacc0 : acc = [] := List.getLast?_eq_none_iff.1 hlast
    subst hacc0
    rw [show mergeShortChunksGo minS [] (c :: next :: rest2) =
      mergeShortChunksGo minS ([] ++ [mergeTwoChunks c next]) rest2 from by
        rw [mergeShortChunksGo.eq_2, if_neg hcnt, hlast]]
    obtain ⟨kc, hkc, hkc1⟩ := hrest c (List.mem_cons_self _ _)
    obtain ⟨kn, hkn, hkn1⟩ := hrest next (List.mem_cons_of_mem _ (List.mem_cons_self _ _))
    refine ih ?_
      (fun c' hc' => hrest c' (List.mem_cons_of_mem _ (List.mem_cons_of_mem _ hc')))
      (by simp) hsum
    intro c' hc'
    simp only [List.nil_append, List.mem_singleton] at hc'
    subst hc'
    refine ⟨kc + kn, ?_, by omega⟩
    rw [mergeTwoChunks_count, hkc, hkn]
    rfl
  | case5 acc c hcnt hlast =>
    intro hacc hrest hinit hsum
    have hacc0 : acc = [] := List.getLast?_eq_none_iff.1 hlast
    subst hacc0
    rw [show mergeShortChunksGo minS [] [c] = [] ++ [c] from by
      rw [mergeShortChunksGo.eq_3, if_neg hcnt, hlast]]
    intro c' hc'
    simp only [List.nil_append, List.mem_singleton] at hc'
    rw [hc']
    obtain ⟨kc, hkc, hkc1⟩ := hrest c (List.mem_cons_self _ _)
    refine ⟨kc, hkc, ?_⟩
    have hcs := hinit rfl
    rw [← hcs] at hsum
    simp only [List.map_cons, List.map_nil, List.sum_cons, List.sum_nil] at hsum
    rw [countVal, hkc] at hsum
    simpa using hsum

/-- C4: for a raw chunk list in which every chunk records a
`sentenceCount ≥ 1`, the single left-to-right merge pass with the
default minimum of 2 yields chunks that all have `sentenceCount ≥ 2`,
except that a total of exactly one unit (a single chunk of size 1) is
kept unmerged. -/
theorem claim_C4_merge_yields_counts_ge_two :
    ∀ cs : List Chunk,
    (∀ c ∈ cs, ∃ k, (c.metadata.bind (·.sentenceCount)) = some k ∧ 1 ≤ k) →
    ((cs.map countVal).sum = 1 → mergeShortChunks cs 2 = cs) ∧
    (2 ≤ (cs.map countVal).sum →
      ∀ c ∈ mergeShortChunks cs 2, ∃ k,
        (c.metadata.bind (·.sentenceCount)) = some k ∧ 2 ≤ k) := by
  intro cs hcs
  constructor
  · intro hsum1
    match cs, hcs, hsum1 with
    | [], _, hsum1 => rfl
    | [c], hcs, hsum1 =>
      obtain ⟨k, hk, hk1⟩ := hcs c (List.mem_singleton_self _)
      have hk1' : k = 1 := by
        simp only [List.map_cons, List.map_nil, List.sum_cons, List.sum_nil] at hsum1
        rw [countVal, hk] at hsum1
        simpa using hsum1
      subst hk1'
      unfold mergeShortChunks
      rw [if_neg (by simp)]
      rw [mergeShortChunksGo.eq_3,
        if_neg (by rw [chunkCount_of_some hk (by omega)]; omega)]
      rfl
    | c1 :: c2 :: rest, hcs, hsum1 =>
      exfalso
      obtain ⟨k1, hk1, h11⟩ := hcs c1 (List.mem_cons_self _ _)
      obtain ⟨k2, hk2, h21⟩ := hcs c2 (List.mem_cons_of_mem _ (List.mem_cons_self _ _))
      simp only [List.map_cons, List.sum_cons] at hsum1
      rw [countVal, hk1, countVal, hk2] at hsum1
      simp only [Option.getD_some] at hsum1
      omega
  · intro hsum2
    unfold mergeShortChunks
    split
    · next h =>
      intro c hc
      rw [List.isEmpty_iff.1 h] at hc
      simp at hc
    · exact mergeGo_counts 2 le_rfl cs [] cs (by simp) hcs (fun _ => rfl) hsum2

/-- Closed instance check for `claim_C4_merge_yields_counts_ge_two`. -/
theorem claim_C4_merge_yields_counts_ge_two_witness :
    (([(⟨"x", some ⟨none, none, none, none, some 1, some 0, some 0⟩⟩ : Chunk),
       (⟨"y z", some ⟨none, none, none, none, some 2, some 1, some 2⟩⟩ : Chunk)].map
        countVal).sum = 1 →
      mergeShortChunks
        [(⟨"x", some ⟨none, none, none, none, some 1, some 0, some 0⟩⟩ : Chunk),
         (⟨"y z", some ⟨none, none, none, none, some 2, some 1, some 2⟩⟩ : Chunk)] 2 =
        [(⟨"x", some ⟨none, none, none, none, some 1, some 0, some 0⟩⟩ : Chunk),
         (⟨"y z", some ⟨none, none, none, none, some 2, some 1, some 2⟩⟩ : Chunk)]) ∧
    (2 ≤ ([(⟨"x", some ⟨none, none, none, none, some 1, some 0, some 0⟩⟩ : Chunk),
        (⟨"y z", some ⟨none, none, none, none, some 2, some 1, some 2⟩⟩ : Chunk)].map
        countVal).sum →
      ∀ c ∈ mergeShortChunks
        [(⟨"x", some ⟨none, none, none, none, some 1, some 0, some 0⟩⟩ : Chunk),
         (⟨"y z", some ⟨none, none, none, none, some 2, some 1, some 2⟩⟩ : Chunk)] 2,
        ∃ k, (c.metadata.bind (·.sentenceCount)) = some k ∧ 2 ≤ k) :=
  claim_C4_merge_yields_counts_ge_two _ (by
    intro c hc
    simp only [List.mem_cons, List.not_mem_nil, or_false] at hc
    rcases hc with h | h <;> subst h
    · exact ⟨1, rfl, le_refl 1⟩
    · exact ⟨2, rfl, by omega⟩)

/-! ### The pipeline on the empty input -/

lemma parseSubtitles_empty : parseSubtitles "" = [] := by
  unfold parseSubtitles splitOnBlank
  rw [show "".data = [] from rfl, splitBlankGo.eq_1]
  rfl

lemma processTextFile_empty (embedDocuments : List String → List (List ℝ))
    (bufferSize : Nat) (percentileThreshold : ℝ) :
    processTextFile embedDocuments "" bufferSize percentileThreshold =
      .error "Failed to calculate breakpoint distance threshold" := by
  have hss : (structureSubtitles "" bufferSize : List (SentenceObject ℝ)) = [] := by
    simp only [structureSubtitles, parseSubtitles_empty]
    rfl
  simp only [processTextFile, hss]
  rfl

/-- C1, counterexample to the claim as stated: on the empty input the
full processing invocation does not return an empty chunk list — it
raises the threshold `ComputationError` instead. -/
theorem claim_C1_empty_input_counterexample :
    processTextFile (fun _ => []) "" 1 80 ≠ .ok [] ∧
    processTextFile (fun _ => []) "" 1 80 =
      .error "Failed to calculate breakpoint distance threshold" := by
  refine ⟨?_, processTextFile_empty _ 1 80⟩
  intro h
  rw [processTextFile_empty _ 1 80] at h
  cases h

/-- C1, amended: for the empty input unit sequence, a full processing
invocation (structure units, attach embeddings, compute distances and
threshold, group into chunks) raises the `ComputationError` ("Failed to
calculate breakpoint distance threshold"), for every embedding provider,
buffer size and percentile threshold; it never reaches the grouping
stage and never returns a chunk list. -/
theorem claim_C1_empty_input_raises :
    ∀ (embedDocuments : List String → List (List ℝ)) (bufferSize : Nat)
      (percentileThreshold : ℝ),
    processTextFile embedDocuments "" bufferSize percentileThreshold =
      .error "Failed to calculate breakpoint distance threshold" := by
  intro embedDocuments bufferSize percentileThreshold
  exact processTextFile_empty embedDocuments bufferSize percentileThreshold

/-- Closed instance check for `claim_C1_empty_input_raises`. -/
theorem claim_C1_empty_input_raises_witness :
    processTextFile (fun batch => batch.map (fun _ => [(1 : ℝ)])) "" 2 90 =
      .error "Failed to calculate breakpoint distance threshold" :=
  claim_C1_empty_input_raises (fun batch => batch.map (fun _ => [(1 : ℝ)])) 2 90

/-! ### Subtitle parsing equivalence -/

lemma parseBlock_eq_spec (block : List Char) : parseBlock block = specBlockEntry block := by
  simp only [parseBlock, specBlockEntry]
  cases hl : ((block.splitOn '\n').map trimChars).filter (fun l => !l.isEmpty) with
  | nil => simp
  | cons l0 t =>
    cases t with
    | nil => simp
    | cons l1 rest =>
      simp only [List.length_cons, List.getD_cons_zero, List.getD_cons_succ,
        List.drop_succ_cons, List.drop_zero]
      rw [if_neg (by omega)]
      cases ht : findTimestampMatch l1 with
      | none => cases hi : jsParseInt l0 <;> simp
      | some p =>
        obtain ⟨st, et⟩ := p
        cases hi : jsParseInt l0 with
        | none => simp
        | some idx =>
          by_cases hc : (List.intercalate [' '] rest).isEmpty
          · simp [hc]
          · simp [hc]

/-- C9: `parseSubtitles` splits the text on blank lines and keeps, in
input order, exactly the blocks whose first nonblank line parses as an
integer index, whose second contains a `NN:NN:NN,NNN --> NN:NN:NN,NNN`
timestamp, and whose remaining lines (joined with single spaces) are
nonempty: every other block is silently dropped, and no input raises an
error (the parser is a total function).  The per-block reading used by
the parser agrees with the specification-side reading
`specBlockEntry`. -/
theorem claim_C9_parse_subtitles_lenient :
    (∀ textCorpus : String,
      parseSubtitles textCorpus =
        ((splitOnBlank textCorpus.data).filter
          (fun b => !(trimChars b).isEmpty)).filterMap specBlockEntry) ∧
    (∀ block : List Char, parseBlock block = specBlockEntry block) := by
  refine ⟨fun textCorpus => ?_, parseBlock_eq_spec⟩
  unfold parseSubtitles
  rw [funext parseBlock_eq_spec]

/-- Closed instance check for `claim_C9_parse_subtitles_lenient`, at the
two-entry sample subtitle text. -/
theorem claim_C9_parse_subtitles_lenient_witness :
    parseSubtitles "1\n00:00:01,000 --> 00:00:02,000\nHello world\n\n2\n00:00:02,000 --> 00:00:03,000\nFoo bar" =
      ((splitOnBlank ("1\n00:00:01,000 --> 00:00:02,000\nHello world\n\n2\n00:00:02,000 --> 00:00:03,000\nFoo bar" : String).data).filter
        (fun b => !(trimChars b).isEmpty)).filterMap specBlockEntry :=
  claim_C9_parse_subtitles_lenient.1
    "1\n00:00:01,000 --> 00:00:02,000\nHello world\n\n2\n00:00:02,000 --> 00:00:03,000\nFoo bar"

/-! ### Supporting lemmas: string joins and the context window -/

lemma strFoldl_append (l : List String) : ∀ a : String,
    l.foldl (· ++ ·) a = a ++ String.join l := by
  induction l with
  | nil => intro a; exact (String.append_empty a).symm
  | cons s t ih =>
    intro a
    rw [List.foldl_cons, ih (a ++ s), String.append_assoc]
    have hj : String.join (s :: t) = s ++ String.join t := by
      show List.foldl (· ++ ·) "" (s :: t) = s ++ String.join t
      rw [List.foldl_cons, String.empty_append, ih s]
    rw [hj]

lemma strJoin_cons (s : String) (l : List String) :
    String.join (s :: l) = s ++ String.join l := by
  show List.foldl (· ++ ·) "" (s :: l) = s ++ String.join l
  rw [List.foldl_cons, String.empty_append, strFoldl_append l s]

lemma strJoin_append (l1 l2 : List String) :
    String.join (l1 ++ l2) = String.join l1 ++ String.join l2 := by
  induction l1 with
  | nil => rw [List.nil_append, show String.join [] = "" from rfl, String.empty_append]
  | cons s t ih => rw [List.cons_append, strJoin_cons, strJoin_cons, ih, String.append_assoc]

lemma strJoin_replicate_empty (k : Nat) : String.join (List.replicate k "") = "" := by
  induction k with
  | zero => rfl
  | succ n ih => rw [List.replicate_succ, strJoin_cons, ih]; rfl

lemma foldl_ite_append (cond : Nat → Prop) [DecidablePred cond] (u : Nat → String)
    (l : List Nat) : ∀ init : String,
    l.foldl (fun acc k => if cond k then acc ++ u k else acc) init =
    init ++ String.join (l.map (fun k => if cond k then u k else "")) := by
  induction l with
  | nil => intro init; exact (String.append_empty init).symm
  | cons x t ih =>
    intro init
    rw [List.foldl_cons, List.map_cons, strJoin_cons]
    by_cases h : cond x
    · rw [if_pos h, if_pos h, ih, String.append_assoc]
    · rw [if_neg h, if_neg h, ih, String.empty_append]

lemma foldl_ite_append_sp (cond : Nat → Prop) [DecidablePred cond] (u : Nat → String)
    (l : List Nat) : ∀ init : String,
    l.foldl (fun acc k => if cond k then acc ++ u k ++ " " else acc) init =
    init ++ String.join (l.map (fun k => if cond k then u k ++ " " else "")) := by
  induction l with
  | nil => intro init; exact (String.append_empty init).symm
  | cons x t ih =>
    intro init
    rw [List.foldl_cons, List.map_cons, strJoin_cons]
    by_cases h : cond x
    · rw [if_pos h, if_pos h, ih]
      simp only [String.append_assoc]
    · rw [if_neg h, if_neg h, ih, String.empty_append]

lemma beforeWindow_eq (sentences : List String) (b i : Nat) (hi : i < sentences.length) :
    (List.range b).map (fun k : Nat => if 0 ≤ (i : Int) - (b : Int) + (k : Int) then
        sentences.getD ((i : Int) - (b : Int) + (k : Int)).toNat "" ++ " " else "") =
    List.replicate (b - i) "" ++ ((sentences.take i).drop (i - b)).map (· ++ " ") := by
  apply List.ext_getElem
  · simp only [List.length_map, List.length_range, List.length_append, List.length_replicate,
      List.length_drop, List.length_take]
    omega
  · intro k hk1 hk2
    simp only [List.length_map, List.length_range] at hk1
    rw [List.getElem_map]
    by_cases hk : k < b - i
    · rw [List.getElem_append_left (by simpa using hk), List.getElem_replicate]
      rw [if_neg (by rw [List.getElem_range]; omega)]
    · rw [List.getElem_append_right (by simpa using hk)]
      rw [List.getElem_map, List.getElem_range]
      rw [if_pos (by omega)]
      have hb1 : ((i : Int) - (b : Int) + (k : Int)).toNat =
          i - b + (k - (b - i)) := by omega
      rw [hb1]
      have hlt : i - b + (k - (b - i)) < sentences.length := by omega
      rw [List.getD_eq_getElem sentences "" hlt]
      rw [List.getElem_drop, List.getElem_take]
      simp only [List.length_replicate]

lemma afterWindow_eq (sentences : List String) (b i : Nat) :
    (List.range b).map (fun k : Nat => if i + 1 + k < sentences.length then
        sentences.getD (i + 1 + k) "" else "") =
    ((sentences.take (i + 1 + b)).drop (i + 1)) ++
      List.replicate (b - (min (i + 1 + b) sentences.length - (i + 1))) "" := by
  apply List.ext_getElem
  · simp only [List.length_map, List.length_range, List.length_append, List.length_replicate,
      List.length_drop, List.length_take]
    omega
  · intro k hk1 hk2
    simp only [List.length_map, List.length_range] at hk1
    rw [List.getElem_map, List.getElem_range]
    by_cases hk : k < ((sentences.take (i + 1 + b)).drop (i + 1)).length
    · rw [List.getElem_append_left hk]
      have hklen : i + 1 + k < sentences.length := by
        simp only [List.length_drop, List.length_take] at hk
        omega
      rw [if_pos hklen, List.getElem_drop, List.getElem_take,
        List.getD_eq_getElem sentences "" hklen]
    · rw [List.getElem_append_right (by omega)]
      rw [List.getElem_replicate]
      rw [if_neg (by simp only [List.length_drop, List.length_take] at hk; omega)]

lemma structuredCombined_eq_spec (sentences : List String) (b i : Nat)
    (hi : i < sentences.length) :
    structuredCombined sentences b i = specContextWindow sentences b i := by
  simp only [structuredCombined, specContextWindow]
  rw [foldl_ite_append_sp (fun k => 0 ≤ (i : Int) - (b : Int) + (k : Int))
    (fun k => sentences.getD ((i : Int) - (b : Int) + (k : Int)).toNat "") (List.range b)]
  rw [foldl_ite_append (fun k => i + 1 + k < sentences.length)
    (fun k => sentences.getD (i + 1 + k) "") (List.range b)]
  rw [String.empty_append, beforeWindow_eq sentences b i hi, afterWindow_eq sentences b i,
    strJoin_append, strJoin_append, strJoin_replicate_empty, strJoin_replicate_empty,
    String.empty_append, String.append_empty]
  simp only [String.append_assoc]

lemma trimChars_append_ws (l : List Char) (c : Char) (hc : jsWS c = true) :
    trimChars (l ++ [c]) = trimChars l := by
  unfold trimChars
  rw [List.dropWhile_append]
  cases hdw : l.dropWhile jsWS with
  | nil =>
    rw [if_pos (show ([] : List Char).isEmpty = true from rfl),
      show List.dropWhile jsWS [c] = [] from by
        rw [List.dropWhile_cons, if_pos hc]
        rfl]
  | cons d ds =>
    rw [if_neg (by simp)]
    rw [List.reverse_append, show ([c] : List Char).reverse = [c] from rfl,
      List.singleton_append,
      show List.dropWhile jsWS (c :: (d :: ds).reverse) =
        List.dropWhile jsWS ((d :: ds).reverse) from by
          rw [List.dropWhile_cons, if_pos hc]]

lemma jsTrim_append_space (x : String) : jsTrim (x ++ " ") = jsTrim x := by
  unfold jsTrim
  rw [String.data_append, show (" " : String).data = [' '] from rfl,
    trimChars_append_ws x.data ' ' rfl]

/-- C7: `structureSentences` produces one unit per position, in order,
whose `combined_sentence` is exactly the specified window: the contents
of `[i-b, i-1]` (clipped at 0) each followed by one space, the content
at `i` followed by one space, then the contents of `[i+1, i+b]` (clipped
at the end) concatenated with no separator, the whole trimmed; for
`b = 0` it is the unit's own trimmed content. -/
theorem claim_C7_context_window_shape :
    ∀ (α : Type) (sentences : List String) (bufferSize i : Nat), i < sentences.length →
    (structureSentences sentences bufferSize : List (SentenceObject α)).length =
      sentences.length ∧
    ∃ o : SentenceObject α,
      (structureSentences sentences bufferSize : List (SentenceObject α))[i]? = some o ∧
      o.sentence = sentences.getD i "" ∧
      o.index = i ∧
      o.combined_sentence = some (specContextWindow sentences bufferSize i) ∧
      (bufferSize = 0 → o.combined_sentence = some (jsTrim (sentences.getD i ""))) := by
  intro α sentences bufferSize i hi
  constructor
  · simp [structureSentences]
  · refine ⟨⟨sentences[i], i,
      some (structuredCombined sentences bufferSize i), none, none, none⟩, ?_, ?_, rfl, ?_, ?_⟩
    · unfold structureSentences
      rw [List.getElem?_map, List.getElem?_enum, List.getElem?_eq_getElem hi]
      rfl
    · exact (List.getD_eq_getElem sentences "" hi).symm
    · rw [structuredCombined_eq_spec sentences bufferSize i hi]
    · intro hb0
      subst hb0
      rw [structuredCombined_eq_spec sentences 0 i hi]
      simp only [specContextWindow]
      rw [show (sentences.take i).drop (i - 0) = [] from
          List.drop_eq_nil_of_le (by simp [List.length_take]),
        show (sentences.take (i + 1 + 0)).drop (i + 1) = [] from
          List.drop_eq_nil_of_le (by simp [List.length_take])]
      simp only [List.map_nil]
      rw [show String.join [] = "" from rfl, String.empty_append, String.append_empty,
        jsTrim_append_space]

/-- Closed instance check for `claim_C7_context_window_shape`. -/
theorem claim_C7_context_window_shape_witness :
    (structureSentences ["a b", "c", "d"] 1 : List (SentenceObject Unit)).length = 3 ∧
    ∃ o : SentenceObject Unit,
      (structureSentences ["a b", "c", "d"] 1 : List (SentenceObject Unit))[1]? = some o ∧
      o.sentence = (["a b", "c", "d"].getD 1 "") ∧
      o.index = 1 ∧
      o.combined_sentence = some (specContextWindow ["a b", "c", "d"] 1 1) ∧
      (1 = 0 → o.combined_sentence = some (jsTrim (["a b", "c", "d"].getD 1 ""))) :=
  claim_C7_context_window_shape Unit ["a b", "c", "d"] 1 1 (by norm_num)

end Chunking
